import Mathlib

/-!
Verification development for the `mcp-remote-oauth-client-provider` repository.

The repository implements a client-side OAuth 2.0 authorization-code-with-PKCE
helper (`src/OAuthClientProvider.ts`, `src/oauth-server.ts`, `src/utils.ts`).
This file gives a shallow embedding of the relevant code in Lean:

* pure functions of the source (`generatePKCEChallenge`, `registerClient`,
  `refreshTokens`, the callback server's request handler, the query/body
  builders of `performAuthorizationCodeFlow` / `exchangeCodeForTokens`, and
  `FileTokenStorage`) are translated to Lean functions, with external
  collaborators (the `crypto` hash, `axios` responses, JSON parsing, the file
  system) passed in as explicit parameters;

* the asynchronous orchestration (`tokens`, `ensureAuthenticated`,
  `_performAuthentication`) is embedded as a small-step interleaving machine:
  each step corresponds to one synchronous segment of JavaScript code between
  `await` points (the Node event loop runs such segments atomically, in an
  order chosen by I/O completion — modelled here by an arbitrary schedule).
-/

namespace Oauth

/-- TokenSet as parsed from storage or returned by the token endpoint
(`OAuthTokens` of the SDK).  All fields are `Option` because the values come
from JSON (`JSON.parse` of a stored file, or `response.data`), where any field
may be absent; JavaScript field access on a missing field yields `undefined`,
modelled by `none`. -/
structure OAuthTokens where
  access_token : Option String
  token_type : Option String
  expires_in : Option Nat
  refresh_token : Option String
  scope : Option String
deriving DecidableEq, Repr

/-- Client identity (`OAuthClientInformationFull`), restricted to the fields the
verified code paths read: `client_id`, `client_secret`, `redirect_uris`. -/
structure ClientInfo where
  client_id : String
  client_secret : Option String
  redirect_uris : List String
deriving DecidableEq, Repr

/-- JavaScript truthiness of an optional string: `undefined`/`null` and the
empty string are falsy, every other string is truthy. -/
def strTruthy (o : Option String) : Bool :=
  match o with
  | some s => !(s == "")
  | none => false

/-- The JavaScript expression `o || d` for an optional string `o` and a string
default `d` (used in `refreshTokens`: `response.data.refresh_token || refreshToken`). -/
def jsOrStr (o : Option String) (d : String) : String :=
  match o with
  | some s => if s = "" then d else s
  | none => d

/-- The check `existingTokens?.access_token` of `ensureAuthenticated`
(`OAuthClientProvider.ts` line 174): optional chaining on a possibly absent
record, then truthiness of the possibly absent `access_token` field. -/
def hasAccess (t : Option OAuthTokens) : Bool :=
  match t with
  | some tk => strTruthy tk.access_token
  | none => false

/-- The expression `a <|> b` on the in-memory cache and the stored record:
`clientInformation()` returns `this.clientInfo` if set, otherwise the record
loaded from storage. -/
def firstSome (a b : Option ClientInfo) : Option ClientInfo :=
  match a with
  | some x => some x
  | none => b

/-! ## PKCE generator (`generatePKCEChallenge`, OAuthClientProvider.ts 353-365)

`crypto.randomBytes(32).toString('base64url')` and
`createHash('sha256').update(verifier).digest('base64url')`.  Node's
`base64url` encoding is unpadded base64 over the URL-safe alphabet; it is
implemented here from scratch.  The SHA-256 function itself lives in Node's
`crypto` module (an external collaborator), so it is a parameter. -/

/-- Split a byte list into 6-bit groups, exactly as unpadded base64 does:
full 3-byte blocks give 4 sextets, a trailing 2-byte block gives 3, a trailing
1-byte block gives 2. -/
def sextets : List Nat → List Nat
  | b1 :: b2 :: b3 :: rest =>
      b1 / 4 :: ((b1 % 4) * 16 + b2 / 16) :: ((b2 % 16) * 4 + b3 / 64) :: (b3 % 64) ::
        sextets rest
  | [b1, b2] => [b1 / 4, (b1 % 4) * 16 + b2 / 16, (b2 % 16) * 4]
  | [b1] => [b1 / 4, (b1 % 4) * 16]
  | [] => []

/-- The 64-character URL-safe base64 alphabet (RFC 4648 section 5). -/
def b64Chars : List Char :=
  "ABCDEFGHIJKLMNOPQRSTUVWXYZabcdefghijklmnopqrstuvwxyz0123456789-_".data

/-- Character for one sextet value. -/
def b64Char (n : Nat) : Char := b64Chars.getD n 'A'

/-- Unpadded URL-safe base64 of a byte list (Node `Buffer.toString('base64url')`). -/
def b64url (bytes : List Nat) : String := String.mk ((sextets bytes).map b64Char)

/-- UTF-8 bytes of a string consisting of ASCII characters (the verifier is
drawn from `b64Chars`, which is pure ASCII, so code points equal bytes). -/
def strBytes (s : String) : List Nat := s.data.map Char.toNat

/-- The verifier/challenge pair produced by `generatePKCEChallenge`. -/
structure PKCEPair where
  challenge : String
  verifier : String
deriving DecidableEq, Repr

/-- Model of `generatePKCEChallenge` (OAuthClientProvider.ts 353-365):
`verifier = base64url(randomBytes)`, `challenge = base64url(sha256(verifier))`.
`sha256` is the external hash, `randomBytes` the output of
`crypto.randomBytes(32)`. -/
def generatePKCEChallenge (sha256 : List Nat → List Nat) (randomBytes : List Nat) :
    PKCEPair :=
  let verifier := b64url randomBytes
  let challenge := b64url (sha256 (strBytes verifier))
  ⟨challenge, verifier⟩

/-- A standard PKCE `S256` check: the challenge must equal the unpadded
base64url of the SHA-256 of the verifier (RFC 7636 section 4.6). -/
def pkceS256Validates (sha256 : List Nat → List Nat) (verifier challenge : String) :
    Prop :=
  challenge = b64url (sha256 (strBytes verifier))

/-! ## Callback server request handler (`createOAuthCallbackServer`, oauth-server.ts)

The handler receives a request; `none` models a request with no `req.url`.
Otherwise the request carries its pathname and the `code` / `error` query
parameters (`searchParams.get` returns `null`, modelled `none`, when the
parameter is absent). -/

/-- What the handler writes back to the browser. -/
inductive CallbackResponse where
  /-- 400 `Bad Request` for a request without a URL. -/
  | badRequest
  /-- 400 HTML failure page rendering the error string. -/
  | errorPage (error : String)
  /-- 200 HTML success page instructing the user to close the window. -/
  | successPage
  /-- 400 HTML failure page for a callback with no authorization code. -/
  | missingCodePage
  /-- 404 `Not Found` for any other path. -/
  | notFound
deriving DecidableEq, Repr

/-- Event emitted to the waiting flow (`events.emit` in oauth-server.ts). -/
inductive CallbackEvent where
  | authCode (code : String)
  | authError (error : String)
deriving DecidableEq, Repr

/-- The `if (code)` / `else` tail of the handler. -/
def handleCodeParam (code : Option String) : CallbackResponse × Option CallbackEvent :=
  match code with
  | some c => if c = "" then (.missingCodePage, none) else (.successPage, some (.authCode c))
  | none => (.missingCodePage, none)

/-- Model of the request handler installed by `createOAuthCallbackServer`
(oauth-server.ts 14-73): on the configured path, a truthy `error` parameter
signals failure, else a truthy `code` parameter signals success, else a
missing-code page; any other path gets 404; a request without a URL gets 400. -/
def handleCallbackRequest (cfgPath : String)
    (req : Option (String × Option String × Option String)) :
    CallbackResponse × Option CallbackEvent :=
  match req with
  | none => (.badRequest, none)
  | some (path, code, error) =>
      if path = cfgPath then
        match error with
        | some e => if e = "" then handleCodeParam code else (.errorPage e, some (.authError e))
        | none => handleCodeParam code
      else (.notFound, none)

/-! ## Client registration (`registerClient`, OAuthClientProvider.ts 235-284) -/

/-- Errors `registerClient` can throw. -/
inductive RegisterError where
  /-- `No registration endpoint found in discovery document` (line 252). -/
  | noRegistrationEndpoint
  /-- `Failed to register OAuth client: ...` (line 282), wrapping the HTTP error. -/
  | registrationFailed (msg : String)
deriving DecidableEq, Repr

/-- Result of a successful `registerClient` run: the resolved identity, the
in-memory cache `this.clientInfo` afterwards, the persisted record afterwards,
and whether a dynamic-registration HTTP call was performed. -/
structure RegisterOutcome where
  clientInfo : ClientInfo
  mem : Option ClientInfo
  stored : Option ClientInfo
  registered : Bool
deriving DecidableEq, Repr

/-- Model of `registerClient`: static client info wins (lines 237-241, storage
untouched); else a cached identity — `this.clientInfo` or the stored record
via `clientInformation()` — is used without registration (lines 244-249); else
the line-251 check `!this.discoveryDocument?.registration_endpoint` makes a
falsy endpoint — absent or the empty string — fatal; else the dynamic
registration call runs (`regResult` is the `axios.post` outcome) and on success
the identity is persisted via `saveClientInformation` before returning
(lines 267-283). -/
def registerClient (staticInfo mem stored : Option ClientInfo)
    (registration_endpoint : Option String) (regResult : Except String ClientInfo) :
    Except RegisterError RegisterOutcome :=
  match staticInfo with
  | some ci => .ok ⟨ci, some ci, stored, false⟩
  | none =>
      match firstSome mem stored with
      | some ci => .ok ⟨ci, some ci, stored, false⟩
      | none =>
          if strTruthy registration_endpoint then
            match regResult with
            | .ok ci => .ok ⟨ci, some ci, some ci, true⟩
            | .error e => .error (.registrationFailed e)
          else .error .noRegistrationEndpoint

/-! ## Token refresh (`refreshTokens`, OAuthClientProvider.ts 401-444)

The model covers the body after discovery/client resolution: the form POST to
the token endpoint (`response` is the `axios.post` outcome) and the TokenSet
assembled on lines 431-437, which is both persisted via `saveTokens` and
returned.  The second component of the result is the stored record after the
call (`stored` is the record before). -/

def refreshTokens (refreshToken : String) (response : Except String OAuthTokens)
    (stored : Option OAuthTokens) :
    Except String OAuthTokens × Option OAuthTokens :=
  match response with
  | .error e => (.error ("Failed to refresh tokens: " ++ e), stored)
  | .ok r =>
      let tokens : OAuthTokens :=
        { access_token := r.access_token
          token_type := r.token_type
          expires_in := r.expires_in
          refresh_token := some (jsOrStr r.refresh_token refreshToken)
          scope := r.scope }
      (.ok tokens, some tokens)

/-! ## Authorization URL and token-exchange body
(`performAuthorizationCodeFlow` 318-351, `exchangeCodeForTokens` 367-399)

Both read `this.clientInfo.redirect_uris[0]` with no emptiness check; the TS
expression `xs[0]` on a possibly-empty array is `xs.head?` here, so the builders
return `none` exactly when the implicit precondition fails. -/

/-- Query parameters set on the authorization URL (lines 330-339). -/
structure AuthorizationQuery where
  client_id : String
  response_type : String
  redirect_uri : String
  code_challenge : String
  code_challenge_method : String
  resource : Option String
deriving DecidableEq, Repr

/-- Builds the authorization-URL query of `performAuthorizationCodeFlow`;
`none` when `redirect_uris` has no element 0. -/
def buildAuthorizationQuery (ci : ClientInfo) (challenge : String)
    (authorizeResource : Option String) : Option AuthorizationQuery :=
  match ci.redirect_uris.head? with
  | none => none
  | some uri => some ⟨ci.client_id, "code", uri, challenge, "S256", authorizeResource⟩

/-- Form body POSTed by `exchangeCodeForTokens` (lines 372-383). -/
structure TokenExchangeBody where
  grant_type : String
  code : String
  redirect_uri : String
  client_id : String
  code_verifier : String
  client_secret : Option String
deriving DecidableEq, Repr

/-- Builds the code-for-token exchange body; `none` when `redirect_uris` has no
element 0.  The `client_secret` field is added only when truthy (lines 381-383). -/
def buildTokenExchangeBody (ci : ClientInfo) (code codeVerifier : String) :
    Option TokenExchangeBody :=
  match ci.redirect_uris.head? with
  | none => none
  | some uri =>
      some ⟨"authorization_code", code, uri, ci.client_id, codeVerifier,
        if strTruthy ci.client_secret then ci.client_secret else none⟩

/-! ## File-backed credential store (`FileTokenStorage`, utils.ts 24-118)

The file system is an association list from paths to file contents.  `readFile`
on a missing path throws, modelled by the lookup returning `none`; `JSON.parse`
may throw, modelled by the decoder parameters returning `none`.  Every storage
method wraps its body in `try`/`catch`, so the Lean translations are total. -/

/-- `path.join` with the separators the storage class uses. -/
def joinPath (a b : String) : String := a ++ "/" ++ b

def tokenPath (configDir serverUrlHash : String) : String :=
  joinPath (joinPath configDir serverUrlHash) "tokens.json"

def clientInfoPath (configDir serverUrlHash : String) : String :=
  joinPath (joinPath configDir serverUrlHash) "client_info.json"

def codeVerifierPath (configDir serverUrlHash : String) : String :=
  joinPath (joinPath configDir serverUrlHash) "code_verifier.txt"

/-- Contents of `fs.readFile(p)`, `none` when the file does not exist. -/
def lookupFile (fs : List (String × String)) (p : String) : Option String :=
  match fs with
  | [] => none
  | kv :: rest => if kv.1 = p then some kv.2 else lookupFile rest p

/-- `fs.unlink(p)` followed by the catch-all: removes the record; removing a
missing record is not an error (utils.ts 62-69 etc.). -/
def eraseFile (fs : List (String × String)) (p : String) : List (String × String) :=
  fs.filter (fun kv => !(kv.1 == p))

/-- `getTokens`: read then parse, any failure caught and turned into `null`
(utils.ts 43-51). -/
def getTokensFS (dec : String → Option OAuthTokens) (fs : List (String × String))
    (configDir serverUrlHash : String) : Option OAuthTokens :=
  match lookupFile fs (tokenPath configDir serverUrlHash) with
  | none => none
  | some data => dec data

/-- `getClientInfo` (utils.ts 71-79). -/
def getClientInfoFS (dec : String → Option ClientInfo) (fs : List (String × String))
    (configDir serverUrlHash : String) : Option ClientInfo :=
  match lookupFile fs (clientInfoPath configDir serverUrlHash) with
  | none => none
  | some data => dec data

/-- `getCodeVerifier` (utils.ts 98-105): the raw file contents, no parse. -/
def getCodeVerifierFS (fs : List (String × String)) (configDir serverUrlHash : String) :
    Option String :=
  lookupFile fs (codeVerifierPath configDir serverUrlHash)

def deleteTokensFS (fs : List (String × String)) (configDir serverUrlHash : String) :
    List (String × String) :=
  eraseFile fs (tokenPath configDir serverUrlHash)

def deleteClientInfoFS (fs : List (String × String)) (configDir serverUrlHash : String) :
    List (String × String) :=
  eraseFile fs (clientInfoPath configDir serverUrlHash)

def deleteCodeVerifierFS (fs : List (String × String)) (configDir serverUrlHash : String) :
    List (String × String) :=
  eraseFile fs (codeVerifierPath configDir serverUrlHash)

/-- The scopes accepted by `invalidateCredentials` (OAuthClientProvider.ts 144). -/
inductive CredScope where
  | all
  | client
  | tokens
  | verifier
deriving DecidableEq, Repr

/-- Persistent plus in-memory credential state of one provider. -/
structure ProviderCreds where
  fs : List (String × String)
  memClientInfo : Option ClientInfo
  memVerifier : Option String
deriving DecidableEq, Repr

/-- Model of `invalidateCredentials` (OAuthClientProvider.ts 144-167): each
scope deletes the corresponding stored records and clears the matching
in-memory copies. -/
def invalidateCredentials (configDir serverUrlHash : String) (st : ProviderCreds) :
    CredScope → ProviderCreds
  | .all =>
      { fs := deleteCodeVerifierFS
                (deleteClientInfoFS (deleteTokensFS st.fs configDir serverUrlHash)
                  configDir serverUrlHash) configDir serverUrlHash
        memClientInfo := none
        memVerifier := none }
  | .client =>
      { st with fs := deleteClientInfoFS st.fs configDir serverUrlHash
                memClientInfo := none }
  | .tokens =>
      { st with fs := deleteTokensFS st.fs configDir serverUrlHash }
  | .verifier =>
      { st with fs := deleteCodeVerifierFS st.fs configDir serverUrlHash
                memVerifier := none }

/-! ## The authentication orchestrator as an interleaving machine

`ensureAuthenticated` (OAuthClientProvider.ts 169-193) and
`_performAuthentication` (195-221) run on the Node event loop: code between
`await` points executes atomically, and the order in which suspended
continuations resume is decided by I/O completion.  The machine below has one
atomic step per such segment:

* a **caller** of `ensureAuthenticated` first awaits
  `this.tokenStorage.getTokens(...)` (line 173) — the resumption of that await
  snapshots the stored tokens (`pending → checked`); its next segment
  (lines 174-186) atomically checks the snapshot's `access_token`, then
  `this.authenticationPromise`, and either returns, joins the in-flight
  attempt, or installs a new attempt and becomes its owner;
* an **attempt** (`_performAuthentication`) advances through its stages —
  discovery, `registerClient`, `initializeAuth` (binding the callback server),
  `performAuthorizationCodeFlow` up to the browser redirect, the redirect wait,
  and `exchangeCodeForTokens` — one stage per step, each stage modelling the
  issue-and-completion of that stage's I/O;
* the owner's `finally` (line 191) clears `this.authenticationPromise` after
  the attempt settles; joiners resolve from the attempt's outcome directly
  (they hold a reference to the same promise).

External outcomes (discovery result, registration result, redirect, exchange
result) are fixed by an environment `Env`; a schedule is a list of task ids. -/

/-- Why an attempt failed (the `throw` sites of the flow). -/
inductive AuthFailure where
  /-- `Failed to fetch OAuth discovery document` (line 231). -/
  | discoveryFailed
  /-- `No registration endpoint found in discovery document` (line 252). -/
  | noRegistrationEndpoint
  /-- `Failed to register OAuth client` (line 282). -/
  | registrationFailed
  /-- The callback server's `listen` failed, e.g. the port is in use
  (oauth-server.ts 75-79, rejecting the `createOAuthCallbackServer` promise). -/
  | bindFailed
  /-- `Authentication error: ...` — the redirect carried an `error` parameter
  (line 305-308). -/
  | redirectError (error : String)
  /-- `Authentication timeout` — the 5-minute timer fired (lines 296-298). -/
  | timeoutError
  /-- `Failed to exchange code for tokens` (line 397). -/
  | exchangeFailed
deriving DecidableEq, Repr

/-- How an attempt (and hence each caller sharing it) settles. -/
inductive Outcome where
  | success
  | failure (e : AuthFailure)
deriving DecidableEq, Repr

/-- What the authorization redirect delivers to the waiting flow. -/
inductive RedirectResult where
  | code (c : String)
  | error (e : String)
  | timeout
deriving DecidableEq, Repr

/-- Fixed outcomes of the external collaborators for one execution. -/
structure Env where
  discoveryOk : Bool
  staticClientInfo : Option ClientInfo
  registration_endpoint : Option String
  registrationOk : Bool
  registeredClient : ClientInfo
  redirect : RedirectResult
  exchangeOk : Bool
  issuedTokens : OAuthTokens
  pkceVerifier : String
deriving Repr

/-- Stage of one `_performAuthentication` run.  The stages map to the calls on
lines 202-211: `discoverOAuthEndpoints`, `registerClient`, `initializeAuth`,
the PKCE/browser part of `performAuthorizationCodeFlow`, the redirect wait,
and `exchangeCodeForTokens`. -/
inductive AttemptPhase where
  | discover
  | register
  | initAuth
  | authFlow
  | awaitRedirect
  | exchange
  | completed (o : Outcome)
deriving DecidableEq, Repr

def isCompleted : AttemptPhase → Bool
  | .completed _ => true
  | _ => false

/-- Progress of one `ensureAuthenticated` caller. -/
inductive CallerPhase where
  /-- Has called `getTokens` and is awaiting the read. -/
  | pending
  /-- The read resolved with this snapshot of the stored tokens; the check
  segment (lines 174-186) has not run yet. -/
  | checked (snap : Option OAuthTokens)
  /-- Saw `this.authenticationPromise` set and is awaiting attempt `k`. -/
  | joined (k : Nat)
  /-- Installed attempt `k` and will clear the promise in its `finally`. -/
  | owner (k : Nat)
  /-- Returned, with the outcome the caller observed. -/
  | done (o : Outcome)
deriving DecidableEq, Repr

def isDone : CallerPhase → Bool
  | .done _ => true
  | _ => false

/-- Network-call counters used by the single-flight property. -/
structure Counts where
  discoveries : Nat
  registrations : Nat
  binds : Nat
  exchanges : Nat
deriving DecidableEq, Repr

/-- The provider's persistent records for its server hash. -/
structure Storage where
  tokens : Option OAuthTokens
  clientInfo : Option ClientInfo
  codeVerifier : Option String
deriving DecidableEq, Repr

/-- Point update of a caller table. -/
def updateFn (f : Nat → CallerPhase) (i : Nat) (v : CallerPhase) : Nat → CallerPhase :=
  fun j => if j = i then v else f j

/-- Whole-system state: storage, the provider's fields
(`authenticationPromise` as the index of the attempt it references,
`authInitialized`, `clientInfo`, the callback server), the attempts created so
far, the callers, and the counters. -/
structure Sys where
  storage : Storage
  authPromise : Option Nat
  authInitialized : Bool
  memClientInfo : Option ClientInfo
  serverRunning : Bool
  attempts : List AttemptPhase
  callers : Nat → CallerPhase
  counts : Counts

/-- One atomic segment of a caller (the code of `ensureAuthenticated`). -/
def callerStep (s : Sys) (i : Nat) : Sys :=
  match s.callers i with
  | .pending =>
      { s with callers := updateFn s.callers i (.checked s.storage.tokens) }
  | .checked snap =>
      if hasAccess snap then
        { s with callers := updateFn s.callers i (.done .success) }
      else
        match s.authPromise with
        | some k => { s with callers := updateFn s.callers i (.joined k) }
        | none =>
            { s with
                attempts := s.attempts ++ [.discover]
                authPromise := some s.attempts.length
                callers := updateFn s.callers i (.owner s.attempts.length) }
  | .joined k =>
      match s.attempts[k]? with
      | some (.completed o) => { s with callers := updateFn s.callers i (.done o) }
      | _ => s
  | .owner k =>
      match s.attempts[k]? with
      | some (.completed o) =>
          { s with authPromise := none, callers := updateFn s.callers i (.done o) }
      | _ => s
  | .done _ => s

/-- One stage of attempt `k` (the code of `_performAuthentication` and the
functions it calls). -/
def attemptStep (env : Env) (s : Sys) (k : Nat) : Sys :=
  match s.attempts[k]? with
  | some .discover =>
      if env.discoveryOk then
        { s with attempts := s.attempts.set k .register
                 counts := { s.counts with discoveries := s.counts.discoveries + 1 } }
      else
        { s with attempts := s.attempts.set k (.completed (.failure .discoveryFailed))
                 counts := { s.counts with discoveries := s.counts.discoveries + 1 } }
  | some .register =>
      match registerClient env.staticClientInfo s.memClientInfo s.storage.clientInfo
          env.registration_endpoint
          (if env.registrationOk then .ok env.registeredClient else .error "rejected") with
      | .ok o =>
          { s with attempts := s.attempts.set k .initAuth
                   memClientInfo := o.mem
                   storage := { s.storage with clientInfo := o.stored }
                   counts := { s.counts with
                      registrations := s.counts.registrations + (if o.registered then 1 else 0) } }
      | .error e =>
          { s with
              attempts := s.attempts.set k (.completed (.failure
                (match e with
                 | .noRegistrationEndpoint => .noRegistrationEndpoint
                 | .registrationFailed _ => .registrationFailed)))
              counts := { s.counts with
                 registrations := s.counts.registrations +
                   (match e with | .registrationFailed _ => 1 | _ => 0) } }
  | some .initAuth =>
      if s.serverRunning then
        { s with attempts := s.attempts.set k (.completed (.failure .bindFailed)) }
      else
        { s with serverRunning := true
                 attempts := s.attempts.set k .authFlow
                 counts := { s.counts with binds := s.counts.binds + 1 } }
  | some .authFlow =>
      { s with storage := { s.storage with codeVerifier := some env.pkceVerifier }
               attempts := s.attempts.set k .awaitRedirect }
  | some .awaitRedirect =>
      match env.redirect with
      | .code _ => { s with attempts := s.attempts.set k .exchange }
      | .error e =>
          { s with attempts := s.attempts.set k (.completed (.failure (.redirectError e))) }
      | .timeout =>
          { s with attempts := s.attempts.set k (.completed (.failure .timeoutError)) }
  | some .exchange =>
      if env.exchangeOk then
        { s with storage := { s.storage with tokens := some env.issuedTokens }
                 authInitialized := true
                 attempts := s.attempts.set k (.completed .success)
                 counts := { s.counts with exchanges := s.counts.exchanges + 1 } }
      else
        { s with attempts := s.attempts.set k (.completed (.failure .exchangeFailed))
                 counts := { s.counts with exchanges := s.counts.exchanges + 1 } }
  | some (.completed _) => s
  | none => s

/-- Task identifiers for the scheduler. -/
inductive Tid where
  | caller (i : Nat)
  | attempt (k : Nat)
deriving DecidableEq, Repr

def step (env : Env) (s : Sys) : Tid → Sys
  | .caller i => callerStep s i
  | .attempt k => attemptStep env s k

/-- Run a schedule from a state. -/
def run (env : Env) (s : Sys) (sched : List Tid) : Sys :=
  sched.foldl (step env) s

/-- Initial state: nothing stored, no attempt, every caller about to check. -/
def initSys : Sys :=
  { storage := ⟨none, none, none⟩
    authPromise := none
    authInitialized := false
    memClientInfo := none
    serverRunning := false
    attempts := []
    callers := fun _ => .pending
    counts := ⟨0, 0, 0, 0⟩ }

/-- Number of attempts currently in flight (created but not settled). -/
def inflightCount (s : Sys) : Nat :=
  (s.attempts.filter (fun ph => !(isCompleted ph))).length

/-- Every attempt created so far has settled. -/
def allCompletedB (s : Sys) : Bool := s.attempts.all isCompleted

/-- Model of `cleanup` (OAuthClientProvider.ts 446-462): closes the callback
server (errors logged, not propagated) and removes all listeners. -/
def cleanupSys (s : Sys) : Sys := { s with serverRunning := false }

/-- Model of `invalidateCredentials('tokens')` acting on the machine state:
only the stored token record is deleted (lines 158-160). -/
def invalidateTokensSys (s : Sys) : Sys :=
  { s with storage := { s.storage with tokens := none } }

/-- Model of `tokens()` (OAuthClientProvider.ts 88-113) as a function of the
provider state it reads: whether `this.authenticationPromise` is set, the
options flag, `this.authInitialized`, the stored record, and the record that a
triggered authentication would leave behind (the re-read on line 107).  The
second component records whether `ensureAuthenticated` was invoked. -/
def tokensRead (inFlight autoAuthenticate authInitialized : Bool)
    (stored afterAuth : Option OAuthTokens) : Option OAuthTokens × Bool :=
  if inFlight then (none, false)
  else if stored = none && autoAuthenticate && !authInitialized then (afterAuth, true)
  else (stored, false)

/-! ## Environments and schedules used by the concrete executions -/

/-- A client identity as a dynamic registration would return it. -/
def regClient0 : ClientInfo :=
  ⟨"client-123", none, ["http://localhost:3030/oauth/callback"]⟩

/-- Tokens as the token endpoint would issue them. -/
def issued0 : OAuthTokens :=
  ⟨some "access-abc", some "Bearer", some 3600, some "refresh-abc", none⟩

/-- A fully successful dynamic-registration environment: discovery succeeds, no
static client, registration endpoint present and accepting, the redirect
delivers a code, the exchange succeeds. -/
def env0 : Env :=
  { discoveryOk := true
    staticClientInfo := none
    registration_endpoint := some "https://auth.example/register"
    registrationOk := true
    registeredClient := regClient0
    redirect := .code "abc123"
    exchangeOk := true
    issuedTokens := issued0
    pkceVerifier := "verifier-1" }

/-- `env0` with a redirect that never arrives: the 5-minute timer fires. -/
def envTimeout : Env := { env0 with redirect := .timeout }

/-- The well-behaved two-caller schedule: caller 1 checks while the attempt of
caller 0 is in flight, joins it, and both observe its success. -/
def schedGood : List Tid :=
  [.caller 0, .caller 0, .attempt 0, .caller 1, .caller 1,
   .attempt 0, .attempt 0, .attempt 0, .attempt 0, .attempt 0,
   .caller 0, .caller 1]

/-- The racing two-caller schedule: caller 1's `getTokens` read resolves (no
token yet) just before the attempt's exchange lands, but its check segment is
only scheduled after the owner's `finally` cleared the promise — so caller 1
starts a second full flow.  This is the Node ordering in which the second
caller's `readFile` completion is delivered after the attempt's final
completion chain ran. -/
def schedRace : List Tid :=
  [.caller 0, .caller 0, .attempt 0, .attempt 0, .attempt 0, .attempt 0, .attempt 0,
   .caller 1, .attempt 0, .caller 0, .caller 1,
   .attempt 1, .attempt 1, .attempt 1, .caller 1]

/-- Prefix of `schedRace` ending with attempt 0 settled, the promise cleared
and caller 1 still at its stale check. -/
def schedRacePre : List Tid :=
  [.caller 0, .caller 0, .attempt 0, .attempt 0, .attempt 0, .attempt 0, .attempt 0,
   .caller 1, .attempt 0, .caller 0]

/-- Prefix of `schedGood` with the attempt in flight and caller 1 at its check. -/
def schedJoinPre : List Tid := [.caller 0, .caller 0, .attempt 0, .caller 1]

/-- Prefix of `schedGood` with the attempt settled and caller 1 still joined. -/
def schedJoinedDonePre : List Tid :=
  [.caller 0, .caller 0, .attempt 0, .caller 1, .caller 1,
   .attempt 0, .attempt 0, .attempt 0, .attempt 0, .attempt 0]

/-- Single-caller run of `envTimeout` up to and including the timeout. -/
def schedTimeout : List Tid :=
  [.caller 0, .caller 0, .attempt 0, .attempt 0, .attempt 0, .attempt 0, .attempt 0]

/-- `envTimeout` run stopped right before the redirect wait resolves. -/
def schedTimeoutPre : List Tid :=
  [.caller 0, .caller 0, .attempt 0, .attempt 0, .attempt 0, .attempt 0]

/-- The environment predicate of the single-flight count property: a dynamic
registration flow in which every external call succeeds and the redirect
delivers a code. -/
def happyDynamic (env : Env) : Prop :=
  env.discoveryOk = true ∧ env.staticClientInfo = none ∧
  strTruthy env.registration_endpoint = true ∧ env.registrationOk = true ∧
  (match env.redirect with | .code _ => true | _ => false) = true ∧
  env.exchangeOk = true

/-! ## Invariants of the machine -/

/-- Counter values a single happy-dynamic attempt has produced on reaching a
given stage. -/
def countsOf : AttemptPhase → Counts
  | .discover => ⟨0, 0, 0, 0⟩
  | .register => ⟨1, 0, 0, 0⟩
  | .initAuth => ⟨1, 1, 0, 0⟩
  | .authFlow => ⟨1, 1, 1, 0⟩
  | .awaitRedirect => ⟨1, 1, 1, 0⟩
  | .exchange => ⟨1, 1, 1, 0⟩
  | .completed _ => ⟨1, 1, 1, 1⟩

/-- Whether the callback server is bound once a single attempt has reached a
given stage. -/
def serverOf : AttemptPhase → Bool
  | .discover => false
  | .register => false
  | .initAuth => false
  | _ => true

/-- Whether a client identity is cached once a single dynamic attempt has
reached a given stage. -/
def cacheOf : AttemptPhase → Bool
  | .discover => false
  | .register => false
  | _ => true

/-- Counter invariant for happy-dynamic runs: as long as at most one attempt
has been created, the counters are exactly those of its stage. -/
def countInv (s : Sys) : Prop :=
  (s.attempts = [] → s.counts = ⟨0, 0, 0, 0⟩ ∧ s.serverRunning = false ∧
     s.memClientInfo = none ∧ s.storage.clientInfo = none) ∧
  (∀ ph, s.attempts = [ph] → s.counts = countsOf ph ∧ s.serverRunning = serverOf ph ∧
     (firstSome s.memClientInfo s.storage.clientInfo).isSome = cacheOf ph)

/-- Promise invariant: while `authenticationPromise` references attempt `k`,
every other attempt has settled; when it is clear, every attempt has settled. -/
def promInv (s : Sys) : Prop :=
  match s.authPromise with
  | some k => k < s.attempts.length ∧
      ∀ (j : Nat) ph, j ≠ k → s.attempts[j]? = some ph → isCompleted ph = true
  | none => ∀ (j : Nat) ph, s.attempts[j]? = some ph → isCompleted ph = true

/-- No two distinct attempts are unsettled at the same time. -/
def atMostOneInflight (s : Sys) : Prop :=
  ∀ (j1 j2 : Nat) ph1 ph2, s.attempts[j1]? = some ph1 → s.attempts[j2]? = some ph2 →
    isCompleted ph1 = false → isCompleted ph2 = false → j1 = j2

/-- Machine invariant: the promise invariant, plus the facts that an owner's
attempt is exactly the one the promise references and that there is at most
one owner. -/
def machInv (s : Sys) : Prop :=
  promInv s ∧
  (∀ (i k : Nat), s.callers i = .owner k → s.authPromise = some k) ∧
  (∀ (i1 i2 k1 k2 : Nat), s.callers i1 = .owner k1 → s.callers i2 = .owner k2 → i1 = i2)

/-! ## Concrete values for the closed executions -/

/-- A stand-in for the external SHA-256: any total byte function works for the
structural statements; this one returns 32 bytes below 256 so the alphabet
facts can be evaluated. -/
def shaStub (l : List Nat) : List Nat :=
  (List.range 32).map (fun i => (i + l.length) % 256)

/-- Concrete 32-byte output of `crypto.randomBytes(32)`. -/
def rndWit : List Nat := List.range 32

/-- A machine state holding a valid stored token, every caller at rest. -/
def sysTok : Sys :=
  { initSys with storage := { initSys.storage with tokens := some issued0 } }

/-- A small concrete file system holding a token record for hash `h1`. -/
def fsWit : List (String × String) :=
  [(tokenPath "/cfg" "h1", "tokendata")]

/-- Decoder stub that accepts exactly the string `tokendata`. -/
def decWit : String → Option OAuthTokens :=
  fun s => if s = "tokendata" then some issued0 else none

/-- A token-endpoint refresh response that omits `refresh_token`. -/
def respNoRT : OAuthTokens := { issued0 with refresh_token := none }

/-- A token-endpoint refresh response that rotates the refresh token. -/
def respNewRT : OAuthTokens := { issued0 with refresh_token := some "rotated" }

/-! # Theorems -/

/-- The data list of a literally built string. -/
theorem data_mk (l : List Char) : (String.mk l).data = l := rfl

/-- Every sextet of a byte list is below 64. -/
theorem sextets_lt : ∀ (l : List Nat), (∀ b ∈ l, b < 256) → ∀ x ∈ sextets l, x < 64
  | [], _ => by intro x hx; simp [sextets] at hx
  | [b1], h => by
      intro x hx
      have hb1 := h b1 (by simp)
      simp [sextets] at hx
      rcases hx with h1 | h1 <;> omega
  | [b1, b2], h => by
      intro x hx
      have hb1 := h b1 (by simp)
      have hb2 := h b2 (by simp)
      simp [sextets] at hx
      rcases hx with h1 | h1 | h1 <;> omega
  | b1 :: b2 :: b3 :: rest, h => by
      intro x hx
      have hb1 := h b1 (by simp)
      have hb2 := h b2 (by simp)
      have hb3 := h b3 (by simp)
      have ih := sextets_lt rest (fun b hb => h b (by simp [hb]))
      simp only [sextets, List.mem_cons] at hx
      rcases hx with h1 | h1 | h1 | h1 | h1
      · omega
      · omega
      · omega
      · omega
      · exact ih x h1

/-- Length of the sextet list: the unpadded base64 length formula. -/
theorem sextets_length : ∀ (l : List Nat), (sextets l).length = (4 * l.length + 2) / 3
  | [] => by simp [sextets]
  | [b1] => by simp [sextets]
  | [b1, b2] => by simp [sextets]
  | b1 :: b2 :: b3 :: rest => by
      have ih := sextets_length rest
      simp only [sextets, List.length_cons, ih]
      omega

/-- The URL-safe alphabet has 64 characters. -/
theorem b64Chars_length : b64Chars.length = 64 := rfl

/-- A sextet value below 64 is encoded inside the URL-safe alphabet. -/
theorem b64Char_mem (n : Nat) (h : n < 64) : b64Char n ∈ b64Chars := by
  have hlt : n < b64Chars.length := by rw [b64Chars_length]; exact h
  rw [b64Char, List.getD_eq_getElem b64Chars 'A' hlt]
  exact List.getElem_mem hlt

/-- Every character of a base64url encoding of bytes is in the URL-safe
alphabet. -/
theorem b64url_chars (bytes : List Nat) (h : ∀ b ∈ bytes, b < 256) :
    ∀ c ∈ (b64url bytes).data, c ∈ b64Chars := by
  intro c hc
  rw [b64url, data_mk] at hc
  rcases List.mem_map.1 hc with ⟨x, hx, rfl⟩
  exact b64Char_mem x (sextets_lt bytes h x hx)

/-- The padding character is not in the URL-safe alphabet. -/
theorem pad_not_in_b64Chars : '=' ∉ b64Chars := by decide

/-- C5 — PKCE generation: the verifier is the unpadded URL-safe base64 of the
32 random bytes drawn from the secure source (so it is 43 characters over the
URL-safe alphabet with no padding), the challenge is the unpadded base64url of
the SHA-256 of the verifier, and the pair passes a standard `S256` PKCE check. -/
theorem c5_pkce_generation (sha256 : List Nat → List Nat) (rnd : List Nat)
    (hlen : rnd.length = 32) (hrnd : ∀ b ∈ rnd, b < 256) :
    (generatePKCEChallenge sha256 rnd).verifier = b64url rnd ∧
    (generatePKCEChallenge sha256 rnd).verifier.length = 43 ∧
    (∀ c ∈ (generatePKCEChallenge sha256 rnd).verifier.data, c ∈ b64Chars) ∧
    '=' ∉ (generatePKCEChallenge sha256 rnd).verifier.data ∧
    (generatePKCEChallenge sha256 rnd).challenge
      = b64url (sha256 (strBytes (generatePKCEChallenge sha256 rnd).verifier)) ∧
    ((∀ b ∈ sha256 (strBytes (generatePKCEChallenge sha256 rnd).verifier), b < 256) →
      (∀ c ∈ (generatePKCEChallenge sha256 rnd).challenge.data, c ∈ b64Chars) ∧
      '=' ∉ (generatePKCEChallenge sha256 rnd).challenge.data) ∧
    pkceS256Validates sha256 (generatePKCEChallenge sha256 rnd).verifier
      (generatePKCEChallenge sha256 rnd).challenge := by
  refine ⟨rfl, ?_, ?_, ?_, rfl, ?_, rfl⟩
  · show ((sextets rnd).map b64Char).length = 43
    rw [List.length_map, sextets_length, hlen]
  · exact b64url_chars rnd hrnd
  · intro hc
    exact pad_not_in_b64Chars (b64url_chars rnd hrnd '=' hc)
  · intro hsha
    refine ⟨b64url_chars _ hsha, fun hc => pad_not_in_b64Chars (b64url_chars _ hsha '=' hc)⟩

/-- Witness for C5 at a concrete 32-byte random input and a concrete hash
stand-in. -/
theorem c5_pkce_generation_witness :
    (generatePKCEChallenge shaStub rndWit).verifier.length = 43 ∧
    '=' ∉ (generatePKCEChallenge shaStub rndWit).verifier.data ∧
    pkceS256Validates shaStub (generatePKCEChallenge shaStub rndWit).verifier
      (generatePKCEChallenge shaStub rndWit).challenge := by
  have h := c5_pkce_generation shaStub rndWit (by simp [rndWit])
    (by intro b hb; have := List.mem_range.1 (by simpa [rndWit] using hb); omega)
  exact ⟨h.2.1, h.2.2.2.1, h.2.2.2.2.2.2⟩

/-- C6 — client identity resolution in `registerClient`: static info wins and
skips cache and registration (storage untouched); a cached identity is used
without re-registration; on the dynamic path the missing-endpoint fatal error
occurs exactly when the discovery metadata has no `registration_endpoint` —
that is, when the endpoint field is falsy under the line-251 truthiness check,
absent or the empty string; and a successful dynamic registration persists the
identity before the step completes. -/
theorem c6_client_identity_resolution (staticInfo mem stored : Option ClientInfo)
    (ep : Option String) (regResult : Except String ClientInfo) :
    (∀ ci, staticInfo = some ci →
      registerClient staticInfo mem stored ep regResult = .ok ⟨ci, some ci, stored, false⟩) ∧
    (staticInfo = none → ∀ ci, firstSome mem stored = some ci →
      registerClient staticInfo mem stored ep regResult = .ok ⟨ci, some ci, stored, false⟩) ∧
    (staticInfo = none → firstSome mem stored = none →
      (registerClient staticInfo mem stored ep regResult = .error .noRegistrationEndpoint ↔
        strTruthy ep = false)) ∧
    (staticInfo = none → firstSome mem stored = none → ∀ e ci, ep = some e → e ≠ "" →
      regResult = .ok ci →
      registerClient staticInfo mem stored ep regResult = .ok ⟨ci, some ci, some ci, true⟩) := by
  refine ⟨?_, ?_, ?_, ?_⟩
  · intro ci hst
    subst hst
    rfl
  · intro hst ci hcache
    subst hst
    simp [registerClient, hcache]
  · intro hst hcache
    subst hst
    cases hep : ep with
    | none => simp [registerClient, hcache, strTruthy]
    | some e =>
        by_cases he : e = ""
        · subst he
          simp [registerClient, hcache, strTruthy]
        · cases hr : regResult with
          | ok ci => simp [registerClient, hcache, strTruthy, he]
          | error msg => simp [registerClient, hcache, strTruthy, he]
  · intro hst hcache e ci hep hne hr
    subst hst hep hr
    simp [registerClient, hcache, strTruthy, hne]

/-- Witness for C6: the resolution paths at concrete identities, including the
empty-string endpoint that the line-251 truthiness check treats as missing. -/
theorem c6_client_identity_resolution_witness :
    registerClient (some regClient0) none none none (.error "down")
      = .ok ⟨regClient0, some regClient0, none, false⟩ ∧
    registerClient none (some regClient0) none none (.error "down")
      = .ok ⟨regClient0, some regClient0, none, false⟩ ∧
    registerClient none none none none (.error "down") = .error .noRegistrationEndpoint ∧
    registerClient none none none (some "") (.ok regClient0)
      = .error .noRegistrationEndpoint ∧
    registerClient none none none (some "https://auth.example/register") (.ok regClient0)
      = .ok ⟨regClient0, some regClient0, some regClient0, true⟩ := by
  refine ⟨(c6_client_identity_resolution (some regClient0) none none none
      (.error "down")).1 regClient0 rfl, ?_, ?_, ?_, ?_⟩
  · exact (c6_client_identity_resolution none (some regClient0) none none
      (.error "down")).2.1 rfl regClient0 rfl
  · exact ((c6_client_identity_resolution none none none none
      (.error "down")).2.2.1 rfl rfl).2 rfl
  · exact ((c6_client_identity_resolution none none none (some "")
      (.ok regClient0)).2.2.1 rfl rfl).2 rfl
  · exact (c6_client_identity_resolution none none none
      (some "https://auth.example/register") (.ok regClient0)).2.2.2 rfl rfl
      "https://auth.example/register" regClient0 rfl (by decide) rfl

/-- C7 — refresh-token retention: when the token endpoint's successful response
omits `refresh_token`, the returned and persisted TokenSet keeps the original
refresh token; when it carries a (truthy) new one, the new one is returned. -/
theorem c7_refresh_retention (refreshToken : String) (r : OAuthTokens)
    (stored : Option OAuthTokens) :
    (r.refresh_token = none →
      refreshTokens refreshToken (.ok r) stored =
        (.ok { r with refresh_token := some refreshToken },
         some { r with refresh_token := some refreshToken })) ∧
    (∀ s, r.refresh_token = some s → s ≠ "" →
      refreshTokens refreshToken (.ok r) stored =
        (.ok { r with refresh_token := some s },
         some { r with refresh_token := some s })) := by
  constructor
  · intro hnone
    simp [refreshTokens, jsOrStr, hnone]
  · intro s hs hne
    simp [refreshTokens, jsOrStr, hs, hne]

/-- Witness for C7: a response without `refresh_token` keeps `orig`, a rotated
response replaces it. -/
theorem c7_refresh_retention_witness :
    refreshTokens "orig" (.ok respNoRT) none =
      (.ok { respNoRT with refresh_token := some "orig" },
       some { respNoRT with refresh_token := some "orig" }) ∧
    refreshTokens "orig" (.ok respNewRT) none =
      (.ok { respNewRT with refresh_token := some "rotated" },
       some { respNewRT with refresh_token := some "rotated" }) := by
  constructor
  · exact (c7_refresh_retention "orig" respNoRT none).1 rfl
  · exact (c7_refresh_retention "orig" respNewRT none).2 "rotated" rfl (by decide)

/-- C8 — callback listener dispatch: on the configured path a truthy `error`
parameter yields the failure page and an `auth-error` signal carrying the
error, else a truthy `code` parameter yields the success page and an
`auth-code` signal carrying the code, else the missing-code failure page with
no signal; any other path yields 404. -/
theorem c8_callback_dispatch (cfgPath path : String) (code error : Option String) :
    (path = cfgPath → ∀ e, error = some e → e ≠ "" →
      handleCallbackRequest cfgPath (some (path, code, error)) =
        (.errorPage e, some (.authError e))) ∧
    (path = cfgPath → (error = none ∨ error = some "") → ∀ c, code = some c → c ≠ "" →
      handleCallbackRequest cfgPath (some (path, code, error)) =
        (.successPage, some (.authCode c))) ∧
    (path = cfgPath → (error = none ∨ error = some "") →
      (code = none ∨ code = some "") →
      handleCallbackRequest cfgPath (some (path, code, error)) = (.missingCodePage, none)) ∧
    (path ≠ cfgPath →
      handleCallbackRequest cfgPath (some (path, code, error)) = (.notFound, none)) := by
  refine ⟨?_, ?_, ?_, ?_⟩
  · intro hp e he hne
    subst hp he
    simp [handleCallbackRequest, hne]
  · intro hp herr c hc hne
    subst hp hc
    rcases herr with h | h <;> subst h <;> simp [handleCallbackRequest, handleCodeParam, hne]
  · intro hp herr hcode
    subst hp
    rcases herr with h | h <;> subst h <;>
      rcases hcode with h2 | h2 <;> subst h2 <;>
        simp [handleCallbackRequest, handleCodeParam]
  · intro hp
    simp [handleCallbackRequest, hp]

/-- Witness for C8: the four dispatch outcomes at concrete requests on the
default callback path. -/
theorem c8_callback_dispatch_witness :
    handleCallbackRequest "/oauth/callback"
        (some ("/oauth/callback", some "abc123", some "access_denied")) =
      (.errorPage "access_denied", some (.authError "access_denied")) ∧
    handleCallbackRequest "/oauth/callback"
        (some ("/oauth/callback", some "abc123", none)) =
      (.successPage, some (.authCode "abc123")) ∧
    handleCallbackRequest "/oauth/callback"
        (some ("/oauth/callback", none, none)) = (.missingCodePage, none) ∧
    handleCallbackRequest "/oauth/callback"
        (some ("/favicon.ico", some "abc123", none)) = (.notFound, none) := by
  refine ⟨?_, ?_, ?_, ?_⟩
  · exact (c8_callback_dispatch "/oauth/callback" "/oauth/callback" (some "abc123")
      (some "access_denied")).1 rfl "access_denied" rfl (by decide)
  · exact (c8_callback_dispatch "/oauth/callback" "/oauth/callback" (some "abc123")
      none).2.1 rfl (Or.inl rfl) "abc123" rfl (by decide)
  · exact (c8_callback_dispatch "/oauth/callback" "/oauth/callback" none
      none).2.2.1 rfl (Or.inl rfl) (Or.inl rfl)
  · exact (c8_callback_dispatch "/oauth/callback" "/favicon.ico" (some "abc123")
      none).2.2.2 (by decide)

/-- C10 — implicit precondition on redirect URIs: the authorization query of
`performAuthorizationCodeFlow` and the exchange body of
`exchangeCodeForTokens` are well-defined exactly when the resolved client
identity has a non-empty `redirect_uris` list (both read element 0 with no
emptiness check). -/
theorem c10_redirect_uri_precondition (ci : ClientInfo) (challenge : String)
    (resource : Option String) (code codeVerifier : String) :
    ((buildAuthorizationQuery ci challenge resource).isSome = true ↔
      ci.redirect_uris ≠ []) ∧
    ((buildTokenExchangeBody ci code codeVerifier).isSome = true ↔
      ci.redirect_uris ≠ []) := by
  cases h : ci.redirect_uris with
  | nil => simp [buildAuthorizationQuery, buildTokenExchangeBody, h]
  | cons u rest => simp [buildAuthorizationQuery, buildTokenExchangeBody, h]

/-- Witness for C10 at a concrete identity with a non-empty URI list. -/
theorem c10_redirect_uri_precondition_witness :
    (buildAuthorizationQuery regClient0 "challenge-1" none).isSome = true ∧
    (buildTokenExchangeBody regClient0 "abc123" "verifier-1").isSome = true := by
  have h := c10_redirect_uri_precondition regClient0 "challenge-1" none "abc123"
    "verifier-1"
  exact ⟨h.1.mpr (by decide), h.2.mpr (by decide)⟩

/-- After erasing a path it cannot be looked up. -/
theorem lookupFile_eraseFile (fs : List (String × String)) (p : String) :
    lookupFile (eraseFile fs p) p = none := by
  induction fs with
  | nil => rfl
  | cons kv rest ih =>
      by_cases hk : kv.1 = p
      · simpa [eraseFile, List.filter_cons, hk] using ih
      · simpa [eraseFile, List.filter_cons, hk, lookupFile] using ih

/-- Erasing a path twice is the same as erasing it once. -/
theorem eraseFile_idem (fs : List (String × String)) (p : String) :
    eraseFile (eraseFile fs p) p = eraseFile fs p := by
  unfold eraseFile
  rw [List.filter_filter]
  exact List.filter_congr (fun x _ => by cases hx : (x.1 == p) <;> simp [hx])

/-- Erasing an absent path leaves the file system unchanged. -/
theorem eraseFile_absent (fs : List (String × String)) (p : String)
    (h : lookupFile fs p = none) : eraseFile fs p = fs := by
  induction fs with
  | nil => rfl
  | cons kv rest ih =>
      simp only [lookupFile] at h
      by_cases hk : kv.1 = p
      · rw [if_pos hk] at h
        exact absurd h (by simp)
      · rw [if_neg hk] at h
        show eraseFile (kv :: rest) p = kv :: rest
        rw [eraseFile, List.filter_cons, if_pos (by simp [hk])]
        rw [show List.filter (fun x => !(x.1 == p)) rest = eraseFile rest p from rfl, ih h]

/-- C9 — credential-store absent-record contract: each get operation returns an
absent result (and never raises — the Lean translations are total because the
source wraps every body in a catch-all) when no record exists or the read
content fails to parse, each delete operation is idempotent and removes the
record, deleting an absent record changes nothing, and invalidating the
`tokens` scope twice in a row equals invalidating it once and leaves no token
record. -/
theorem c9_store_absent_contract (configDir sh : String) (fs : List (String × String))
    (tokDec : String → Option OAuthTokens) (ciDec : String → Option ClientInfo)
    (st : ProviderCreds) :
    (lookupFile fs (tokenPath configDir sh) = none →
      getTokensFS tokDec fs configDir sh = none) ∧
    (∀ d, lookupFile fs (tokenPath configDir sh) = some d → tokDec d = none →
      getTokensFS tokDec fs configDir sh = none) ∧
    (lookupFile fs (clientInfoPath configDir sh) = none →
      getClientInfoFS ciDec fs configDir sh = none) ∧
    (∀ d, lookupFile fs (clientInfoPath configDir sh) = some d → ciDec d = none →
      getClientInfoFS ciDec fs configDir sh = none) ∧
    (lookupFile fs (codeVerifierPath configDir sh) = none →
      getCodeVerifierFS fs configDir sh = none) ∧
    lookupFile (deleteTokensFS fs configDir sh) (tokenPath configDir sh) = none ∧
    deleteTokensFS (deleteTokensFS fs configDir sh) configDir sh
      = deleteTokensFS fs configDir sh ∧
    deleteClientInfoFS (deleteClientInfoFS fs configDir sh) configDir sh
      = deleteClientInfoFS fs configDir sh ∧
    deleteCodeVerifierFS (deleteCodeVerifierFS fs configDir sh) configDir sh
      = deleteCodeVerifierFS fs configDir sh ∧
    (lookupFile fs (tokenPath configDir sh) = none → deleteTokensFS fs configDir sh = fs) ∧
    invalidateCredentials configDir sh (invalidateCredentials configDir sh st .tokens) .tokens
      = invalidateCredentials configDir sh st .tokens ∧
    lookupFile (invalidateCredentials configDir sh st .tokens).fs (tokenPath configDir sh)
      = none := by
  refine ⟨?_, ?_, ?_, ?_, ?_, ?_, ?_, ?_, ?_, ?_, ?_, ?_⟩
  · intro hnone
    simp [getTokensFS, hnone]
  · intro d hd hdec
    simp [getTokensFS, hd, hdec]
  · intro hnone
    simp [getClientInfoFS, hnone]
  · intro d hd hdec
    simp [getClientInfoFS, hd, hdec]
  · intro hnone
    simpa [getCodeVerifierFS] using hnone
  · exact lookupFile_eraseFile fs (tokenPath configDir sh)
  · exact eraseFile_idem fs (tokenPath configDir sh)
  · exact eraseFile_idem fs (clientInfoPath configDir sh)
  · exact eraseFile_idem fs (codeVerifierPath configDir sh)
  · intro hnone
    exact eraseFile_absent fs (tokenPath configDir sh) hnone
  · simp [invalidateCredentials, deleteTokensFS, eraseFile_idem]
  · simp [invalidateCredentials, deleteTokensFS, lookupFile_eraseFile]

/-- Witness for C9 at a concrete one-record file system and concrete decoders. -/
theorem c9_store_absent_contract_witness :
    getTokensFS decWit [] "/cfg" "h1" = none ∧
    getTokensFS (fun _ => none) fsWit "/cfg" "h1" = none ∧
    deleteTokensFS (deleteTokensFS fsWit "/cfg" "h1") "/cfg" "h1"
      = deleteTokensFS fsWit "/cfg" "h1" ∧
    lookupFile (deleteTokensFS fsWit "/cfg" "h1") (tokenPath "/cfg" "h1") = none ∧
    invalidateCredentials "/cfg" "h1"
        (invalidateCredentials "/cfg" "h1" ⟨fsWit, none, none⟩ .tokens) .tokens
      = invalidateCredentials "/cfg" "h1" ⟨fsWit, none, none⟩ .tokens := by
  refine ⟨?_, ?_, ?_, ?_, ?_⟩
  · exact (c9_store_absent_contract "/cfg" "h1" [] decWit (fun _ => none)
      ⟨[], none, none⟩).1 rfl
  · exact (c9_store_absent_contract "/cfg" "h1" fsWit (fun _ => none) (fun _ => none)
      ⟨fsWit, none, none⟩).2.1 "tokendata" (by decide) rfl
  · exact (c9_store_absent_contract "/cfg" "h1" fsWit (fun _ => none) (fun _ => none)
      ⟨fsWit, none, none⟩).2.2.2.2.2.2.1
  · exact (c9_store_absent_contract "/cfg" "h1" fsWit (fun _ => none) (fun _ => none)
      ⟨fsWit, none, none⟩).2.2.2.2.2.1
  · exact (c9_store_absent_contract "/cfg" "h1" fsWit (fun _ => none) (fun _ => none)
      ⟨fsWit, none, none⟩).2.2.2.2.2.2.2.2.2.2.1

/-! ## Machine lemmas -/

/-- An index with a defined element is below the length. -/
theorem lt_of_getq_some {α : Type} {l : List α} {k : Nat} {a : α}
    (h : l[k]? = some a) : k < l.length := by
  by_contra hk
  rw [List.getElem?_eq_none (by omega)] at h
  exact Option.noConfusion h

theorem updateFn_self (f : Nat → CallerPhase) (i : Nat) (v : CallerPhase) :
    updateFn f i v i = v := by
  simp [updateFn]

theorem updateFn_other (f : Nat → CallerPhase) (i j : Nat) (v : CallerPhase)
    (h : j ≠ i) : updateFn f i v j = f j := by
  simp [updateFn, h]

/-- The promise invariant only reads `attempts` and `authPromise`. -/
theorem promInv_congr {s s' : Sys} (hA : s'.attempts = s.attempts)
    (hPr : s'.authPromise = s.authPromise) (h : promInv s) : promInv s' := by
  unfold promInv at *
  rw [hA, hPr]
  exact h

/-- With the promise clear, the promise invariant says every attempt settled. -/
theorem promInv_of_none (s : Sys) (hp : s.authPromise = none) (hI : promInv s) :
    ∀ (j : Nat) ph, s.attempts[j]? = some ph → isCompleted ph = true := by
  unfold promInv at hI
  rw [hp] at hI
  exact hI

/-- Updating a caller to a non-owner phase preserves the two owner clauses. -/
theorem ownerParts_update (s : Sys) (i : Nat) (v : CallerPhase)
    (hv : ∀ k, v ≠ .owner k)
    (hO : ∀ (i' k : Nat), s.callers i' = .owner k → s.authPromise = some k)
    (hU : ∀ (i1 i2 k1 k2 : Nat), s.callers i1 = .owner k1 → s.callers i2 = .owner k2 →
      i1 = i2) :
    (∀ (i' k : Nat), updateFn s.callers i v i' = .owner k → s.authPromise = some k) ∧
    (∀ (i1 i2 k1 k2 : Nat), updateFn s.callers i v i1 = .owner k1 →
      updateFn s.callers i v i2 = .owner k2 → i1 = i2) := by
  constructor
  · intro i' k h'
    by_cases hii : i' = i
    · subst hii
      rw [updateFn_self] at h'
      exact absurd h' (hv k)
    · rw [updateFn_other _ _ _ _ hii] at h'
      exact hO i' k h'
  · intro i1 i2 k1 k2 h1 h2
    by_cases h1i : i1 = i
    · subst h1i
      rw [updateFn_self] at h1
      exact absurd h1 (hv k1)
    · by_cases h2i : i2 = i
      · subst h2i
        rw [updateFn_self] at h2
        exact absurd h2 (hv k2)
      · rw [updateFn_other _ _ _ _ h1i] at h1
        rw [updateFn_other _ _ _ _ h2i] at h2
        exact hU i1 i2 k1 k2 h1 h2

/-- An unsettled attempt is the one the promise references. -/
theorem promise_at_uncompleted (s : Sys) (k : Nat) (ph : AttemptPhase)
    (ha : s.attempts[k]? = some ph) (hco : isCompleted ph = false) (hP : promInv s) :
    s.authPromise = some k := by
  unfold promInv at hP
  cases hp : s.authPromise with
  | none =>
      rw [hp] at hP
      rw [hP k ph ha] at hco
      exact Bool.noConfusion hco
  | some k2 =>
      rw [hp] at hP
      by_cases hkk : k2 = k
      · subst hkk
        rfl
      · rw [hP.2 k ph (fun hh => hkk hh.symm) ha] at hco
        exact Bool.noConfusion hco

/-- Setting the promise's own attempt to any phase preserves the promise
invariant. -/
theorem promInv_set_step (s : Sys) (k : Nat) (ph' : AttemptPhase) (new : Sys)
    (hA : new.attempts = s.attempts.set k ph')
    (hPr : new.authPromise = s.authPromise)
    (hpk : s.authPromise = some k) (hP : promInv s) : promInv new := by
  unfold promInv at *
  rw [hPr, hpk]
  rw [hpk] at hP
  obtain ⟨hlt, hall⟩ := hP
  constructor
  · rw [hA, List.length_set]
    exact hlt
  · intro j ph2 hj hget
    rw [hA, List.getElem?_set_ne (Ne.symm hj)] at hget
    exact hall j ph2 hj hget

/-- Attempt steps never change the number of attempts. -/
theorem attemptStep_length (env : Env) (s : Sys) (k : Nat) :
    (attemptStep env s k).attempts.length = s.attempts.length := by
  simp only [attemptStep]
  repeat' split
  all_goals simp [List.length_set]

/-- While the promise is set no caller step changes the attempt list. -/
theorem callerStep_attempts_of_promise (s : Sys) (i : Nat) (k : Nat)
    (hp : s.authPromise = some k) : (callerStep s i).attempts = s.attempts := by
  cases hc : s.callers i with
  | pending => simp only [callerStep, hc]
  | checked snap =>
      simp only [callerStep, hc]
      cases hA : hasAccess snap <;> simp [hA, hp]
  | joined k2 =>
      simp only [callerStep, hc]
      repeat' split
      all_goals rfl
  | owner k2 =>
      simp only [callerStep, hc]
      repeat' split
      all_goals rfl
  | done o => simp only [callerStep, hc]

/-- Every step of the machine preserves the machine invariant. -/
theorem machInv_step (env : Env) (s : Sys) (t : Tid) (hI : machInv s) :
    machInv (step env s t) := by
  obtain ⟨hP, hO, hU⟩ := hI
  cases t with
  | caller i =>
      show machInv (callerStep s i)
      cases hc : s.callers i with
      | pending =>
          simp only [callerStep, hc]
          obtain ⟨h2, h3⟩ := ownerParts_update s i (.checked s.storage.tokens)
            (fun k => by simp) hO hU
          exact ⟨promInv_congr rfl rfl hP, h2, h3⟩
      | checked snap =>
          simp only [callerStep, hc]
          cases hA : hasAccess snap with
          | true =>
              simp only [hA, if_true]
              obtain ⟨h2, h3⟩ := ownerParts_update s i (.done .success)
                (fun k => by simp) hO hU
              exact ⟨promInv_congr rfl rfl hP, h2, h3⟩
          | false =>
              simp only [hA, Bool.false_eq_true, if_false]
              cases hp : s.authPromise with
              | some k =>
                  show machInv
                    { s with
                        authPromise := some k
                        callers := updateFn s.callers i (.joined k) }
                  refine ⟨promInv_congr (s := s) rfl hp.symm hP, ?_, ?_⟩
                  · intro i' k' h'
                    replace h' : updateFn s.callers i (.joined k) i' = .owner k' := h'
                    show some k = some k'
                    by_cases hii : i' = i
                    · subst hii
                      rw [updateFn_self] at h'
                      exact absurd h' (by simp)
                    · rw [updateFn_other _ _ _ _ hii] at h'
                      rw [← hp]
                      exact hO i' k' h'
                  · intro i1 i2 k1 k2 h1 h2
                    replace h1 : updateFn s.callers i (.joined k) i1 = .owner k1 := h1
                    replace h2 : updateFn s.callers i (.joined k) i2 = .owner k2 := h2
                    by_cases h1i : i1 = i
                    · subst h1i
                      rw [updateFn_self] at h1
                      exact absurd h1 (by simp)
                    · by_cases h2i : i2 = i
                      · subst h2i
                        rw [updateFn_self] at h2
                        exact absurd h2 (by simp)
                      · rw [updateFn_other _ _ _ _ h1i] at h1
                        rw [updateFn_other _ _ _ _ h2i] at h2
                        exact hU i1 i2 k1 k2 h1 h2
              | none =>
                  show machInv
                    { s with
                        attempts := s.attempts ++ [.discover]
                        authPromise := some s.attempts.length
                        callers := updateFn s.callers i (.owner s.attempts.length) }
                  refine ⟨?_, ?_, ?_⟩
                  · unfold promInv
                    refine ⟨by simp, ?_⟩
                    intro j ph hj hget
                    have hjlt : j < s.attempts.length + 1 := by
                      have := lt_of_getq_some hget
                      simpa using this
                    have hjlt2 : j < s.attempts.length := by omega
                    rw [List.getElem?_append_left hjlt2] at hget
                    exact promInv_of_none s hp hP j ph hget
                  · intro i' k' h'
                    replace h' : updateFn s.callers i (.owner s.attempts.length) i'
                        = .owner k' := h'
                    show some s.attempts.length = some k'
                    by_cases hii : i' = i
                    · subst hii
                      rw [updateFn_self] at h'
                      injection h' with hk
                      rw [hk]
                    · rw [updateFn_other _ _ _ _ hii] at h'
                      have := hO i' k' h'
                      rw [hp] at this
                      exact Option.noConfusion this
                  · intro i1 i2 k1 k2 h1 h2
                    replace h1 : updateFn s.callers i (.owner s.attempts.length) i1
                        = .owner k1 := h1
                    replace h2 : updateFn s.callers i (.owner s.attempts.length) i2
                        = .owner k2 := h2
                    by_cases h1i : i1 = i
                    · by_cases h2i : i2 = i
                      · rw [h1i, h2i]
                      · rw [updateFn_other _ _ _ _ h2i] at h2
                        have := hO i2 k2 h2
                        rw [hp] at this
                        exact Option.noConfusion this
                    · rw [updateFn_other _ _ _ _ h1i] at h1
                      have := hO i1 k1 h1
                      rw [hp] at this
                      exact Option.noConfusion this
      | joined k =>
          simp only [callerStep, hc]
          cases ha : s.attempts[k]? with
          | none => exact ⟨hP, hO, hU⟩
          | some ph =>
              cases ph with
              | completed o =>
                  obtain ⟨h2, h3⟩ := ownerParts_update s i (.done o)
                    (fun k' => by simp) hO hU
                  exact ⟨promInv_congr rfl rfl hP, h2, h3⟩
              | discover => exact ⟨hP, hO, hU⟩
              | register => exact ⟨hP, hO, hU⟩
              | initAuth => exact ⟨hP, hO, hU⟩
              | authFlow => exact ⟨hP, hO, hU⟩
              | awaitRedirect => exact ⟨hP, hO, hU⟩
              | exchange => exact ⟨hP, hO, hU⟩
      | owner k =>
          simp only [callerStep, hc]
          cases ha : s.attempts[k]? with
          | none => exact ⟨hP, hO, hU⟩
          | some ph =>
              cases ph with
              | completed o =>
                  have hpk : s.authPromise = some k := hO i k hc
                  show machInv
                    { s with
                        authPromise := none
                        callers := updateFn s.callers i (.done o) }
                  refine ⟨?_, ?_, ?_⟩
                  · unfold promInv
                    intro j ph' hget
                    replace hget : s.attempts[j]? = some ph' := hget
                    by_cases hjk : j = k
                    · subst hjk
                      rw [ha] at hget
                      injection hget with hph
                      rw [← hph]
                      rfl
                    · unfold promInv at hP
                      rw [hpk] at hP
                      exact hP.2 j ph' hjk hget
                  · intro i' k' h'
                    replace h' : updateFn s.callers i (.done o) i' = .owner k' := h'
                    by_cases hii : i' = i
                    · subst hii
                      rw [updateFn_self] at h'
                      exact absurd h' (by simp)
                    · rw [updateFn_other _ _ _ _ hii] at h'
                      exact absurd (hU i' i k' k h' hc) hii
                  · intro i1 i2 k1 k2 h1 h2
                    replace h1 : updateFn s.callers i (.done o) i1 = .owner k1 := h1
                    replace h2 : updateFn s.callers i (.done o) i2 = .owner k2 := h2
                    by_cases h1i : i1 = i
                    · by_cases h2i : i2 = i
                      · rw [h1i, h2i]
                      · rw [updateFn_other _ _ _ _ h2i] at h2
                        exact absurd (hU i2 i k2 k h2 hc) h2i
                    · rw [updateFn_other _ _ _ _ h1i] at h1
                      exact absurd (hU i1 i k1 k h1 hc) h1i
              | discover => exact ⟨hP, hO, hU⟩
              | register => exact ⟨hP, hO, hU⟩
              | initAuth => exact ⟨hP, hO, hU⟩
              | authFlow => exact ⟨hP, hO, hU⟩
              | awaitRedirect => exact ⟨hP, hO, hU⟩
              | exchange => exact ⟨hP, hO, hU⟩
      | done o =>
          simp only [callerStep, hc]
          exact ⟨hP, hO, hU⟩
  | attempt k =>
      show machInv (attemptStep env s k)
      cases ha : s.attempts[k]? with
      | none => simp only [attemptStep, ha]; exact ⟨hP, hO, hU⟩
      | some ph =>
          cases ph with
          | completed o => simp only [attemptStep, ha]; exact ⟨hP, hO, hU⟩
          | discover =>
              have hpk := promise_at_uncompleted s k .discover ha rfl hP
              simp only [attemptStep, ha]
              split
              · exact ⟨promInv_set_step s k _ _ rfl rfl hpk hP, hO, hU⟩
              · exact ⟨promInv_set_step s k _ _ rfl rfl hpk hP, hO, hU⟩
          | register =>
              have hpk := promise_at_uncompleted s k .register ha rfl hP
              simp only [attemptStep, ha]
              split
              · exact ⟨promInv_set_step s k _ _ rfl rfl hpk hP, hO, hU⟩
              · exact ⟨promInv_set_step s k _ _ rfl rfl hpk hP, hO, hU⟩
          | initAuth =>
              have hpk := promise_at_uncompleted s k .initAuth ha rfl hP
              simp only [attemptStep, ha]
              split
              · exact ⟨promInv_set_step s k _ _ rfl rfl hpk hP, hO, hU⟩
              · exact ⟨promInv_set_step s k _ _ rfl rfl hpk hP, hO, hU⟩
          | authFlow =>
              have hpk := promise_at_uncompleted s k .authFlow ha rfl hP
              simp only [attemptStep, ha]
              exact ⟨promInv_set_step s k _ _ rfl rfl hpk hP, hO, hU⟩
          | awaitRedirect =>
              have hpk := promise_at_uncompleted s k .awaitRedirect ha rfl hP
              simp only [attemptStep, ha]
              split
              · exact ⟨promInv_set_step s k _ _ rfl rfl hpk hP, hO, hU⟩
              · exact ⟨promInv_set_step s k _ _ rfl rfl hpk hP, hO, hU⟩
              · exact ⟨promInv_set_step s k _ _ rfl rfl hpk hP, hO, hU⟩
          | exchange =>
              have hpk := promise_at_uncompleted s k .exchange ha rfl hP
              simp only [attemptStep, ha]
              split
              · exact ⟨promInv_set_step s k _ _ rfl rfl hpk hP, hO, hU⟩
              · exact ⟨promInv_set_step s k _ _ rfl rfl hpk hP, hO, hU⟩

/-- The initial state satisfies the machine invariant. -/
theorem machInv_init : machInv initSys := by
  refine ⟨?_, ?_, ?_⟩
  · unfold promInv initSys
    intro j ph hget
    simp at hget
  · intro i k h
    simp [initSys] at h
  · intro i1 i2 k1 k2 h1 h2
    simp [initSys] at h1

/-- Every run from the initial state satisfies the machine invariant. -/
theorem machInv_run (env : Env) (sched : List Tid) : machInv (run env initSys sched) := by
  suffices h : ∀ (l : List Tid) (s : Sys), machInv s → machInv (run env s l) by
    exact h sched initSys machInv_init
  intro l
  induction l with
  | nil => intro s hs; exact hs
  | cons t rest ih =>
      intro s hs
      exact ih (step env s t) (machInv_step env s t hs)

/-- The promise invariant implies that at most one attempt is in flight. -/
theorem inflight_le_one (s : Sys) (hP : promInv s) : atMostOneInflight s := by
  intro j1 j2 ph1 ph2 h1 h2 hc1 hc2
  unfold promInv at hP
  cases hp : s.authPromise with
  | none =>
      rw [hp] at hP
      rw [hP j1 ph1 h1] at hc1
      exact Bool.noConfusion hc1
  | some k =>
      rw [hp] at hP
      by_cases hj1 : j1 = k
      · by_cases hj2 : j2 = k
        · rw [hj1, hj2]
        · rw [hP.2 j2 ph2 hj2 h2] at hc2
          exact Bool.noConfusion hc2
      · rw [hP.2 j1 ph1 hj1 h1] at hc1
        exact Bool.noConfusion hc1

/-- While the promise is set, no step changes the number of attempts — a new
flow can only start once the in-flight one has settled and been cleared. -/
theorem step_length_of_promise (env : Env) (s : Sys) (t : Tid) (k : Nat)
    (hp : s.authPromise = some k) :
    (step env s t).attempts.length = s.attempts.length := by
  cases t with
  | caller i =>
      show (callerStep s i).attempts.length = s.attempts.length
      rw [callerStep_attempts_of_promise s i k hp]
  | attempt k2 => exact attemptStep_length env s k2

/-- With the promise clear, every attempt has settled (boolean form). -/
theorem allCompletedB_of_none (s : Sys) (hp : s.authPromise = none)
    (hP : promInv s) : allCompletedB s = true := by
  unfold allCompletedB
  rw [List.all_eq_true]
  intro x hx
  obtain ⟨n, hn, he⟩ := List.mem_iff_getElem.1 hx
  have hq : s.attempts[n]? = some x := by
    rw [List.getElem?_eq_getElem hn, he]
  exact promInv_of_none s hp hP n x hq

/-- The counter invariant only reads the five tracked fields. -/
theorem countInv_congr {s s' : Sys} (hA : s'.attempts = s.attempts)
    (hC : s'.counts = s.counts) (hS : s'.serverRunning = s.serverRunning)
    (hM : s'.memClientInfo = s.memClientInfo)
    (hSt : s'.storage.clientInfo = s.storage.clientInfo)
    (h : countInv s) : countInv s' := by
  unfold countInv at *
  rw [hA, hC, hS, hM, hSt]
  exact h

/-- Discharges the counter invariant for a state holding a single attempt. -/
theorem countInv_single (new : Sys) (ph' : AttemptPhase)
    (hA : new.attempts = [ph'])
    (hC : new.counts = countsOf ph')
    (hS : new.serverRunning = serverOf ph')
    (hM : (firstSome new.memClientInfo new.storage.clientInfo).isSome = cacheOf ph') :
    countInv new := by
  constructor
  · intro h0
    rw [hA] at h0
    exact absurd h0 (by simp)
  · intro ph hph
    rw [hA] at hph
    have hpe : ph' = ph := by simpa using hph
    rw [← hpe]
    exact ⟨hC, hS, hM⟩

theorem countInv_init : countInv initSys := by
  constructor
  · intro _
    exact ⟨rfl, rfl, rfl, rfl⟩
  · intro ph hph
    simp [initSys] at hph

/-- Every step preserves the counter invariant in a happy dynamic environment. -/
theorem countInv_step (env : Env) (hd : happyDynamic env) (s : Sys) (t : Tid)
    (hJ : countInv s) : countInv (step env s t) := by
  obtain ⟨hdisc, hstat, hep, hro, hred, hexo⟩ := hd
  cases t with
  | caller i =>
      show countInv (callerStep s i)
      cases hc : s.callers i with
      | pending =>
          simp only [callerStep, hc]
          exact countInv_congr (s := s) rfl rfl rfl rfl rfl hJ
      | checked snap =>
          simp only [callerStep, hc]
          cases hA : hasAccess snap with
          | true =>
              simp only [hA, if_true]
              exact countInv_congr (s := s) rfl rfl rfl rfl rfl hJ
          | false =>
              simp only [hA, Bool.false_eq_true, if_false]
              cases hp : s.authPromise with
              | some k => exact countInv_congr (s := s) rfl rfl rfl rfl rfl hJ
              | none =>
                  show countInv
                    { s with
                        attempts := s.attempts ++ [.discover]
                        authPromise := some s.attempts.length
                        callers := updateFn s.callers i (.owner s.attempts.length) }
                  constructor
                  · intro h0
                    replace h0 : s.attempts ++ [.discover] = [] := h0
                    exact absurd h0 (by simp)
                  · intro ph hph
                    replace hph : s.attempts ++ [.discover] = [ph] := hph
                    have hnil : s.attempts = [] ∧ AttemptPhase.discover = ph := by
                      cases hsa : s.attempts with
                      | nil =>
                          rw [hsa] at hph
                          simp at hph
                          exact ⟨rfl, hph⟩
                      | cons a l =>
                          rw [hsa] at hph
                          have := congrArg List.length hph
                          simp at this
                    obtain ⟨h1, h2⟩ := hnil
                    obtain ⟨hc0, hs0, hm0, hst0⟩ := hJ.1 h1
                    subst h2
                    refine ⟨?_, ?_, ?_⟩
                    · show s.counts = countsOf .discover
                      rw [hc0]
                      rfl
                    · show s.serverRunning = serverOf .discover
                      rw [hs0]
                      rfl
                    · show (firstSome s.memClientInfo s.storage.clientInfo).isSome
                        = cacheOf .discover
                      rw [hm0, hst0]
                      rfl
      | joined k =>
          simp only [callerStep, hc]
          cases ha : s.attempts[k]? with
          | none => exact hJ
          | some ph =>
              cases ph with
              | completed o => exact countInv_congr (s := s) rfl rfl rfl rfl rfl hJ
              | discover => exact hJ
              | register => exact hJ
              | initAuth => exact hJ
              | authFlow => exact hJ
              | awaitRedirect => exact hJ
              | exchange => exact hJ
      | owner k =>
          simp only [callerStep, hc]
          cases ha : s.attempts[k]? with
          | none => exact hJ
          | some ph =>
              cases ph with
              | completed o => exact countInv_congr (s := s) rfl rfl rfl rfl rfl hJ
              | discover => exact hJ
              | register => exact hJ
              | initAuth => exact hJ
              | authFlow => exact hJ
              | awaitRedirect => exact hJ
              | exchange => exact hJ
      | done o =>
          simp only [callerStep, hc]
          exact hJ
  | attempt k =>
      show countInv (attemptStep env s k)
      rcases hsa : s.attempts with _ | ⟨ph0, rest0⟩
      · have hnone : s.attempts[k]? = none := by rw [hsa]; simp
        simp only [attemptStep, hnone]
        exact hJ
      · rcases rest0 with _ | ⟨ph1, rest1⟩
        · cases k with
          | succ kk =>
              have hnone : s.attempts[kk + 1]? = none := by rw [hsa]; simp
              simp only [attemptStep, hnone]
              exact hJ
          | zero =>
              have ha : s.attempts[0]? = some ph0 := by rw [hsa]; rfl
              obtain ⟨hcnt, hsrv, hcache⟩ := hJ.2 ph0 hsa
              cases ph0 with
              | completed o =>
                  simp only [attemptStep, ha]
                  exact hJ
              | discover =>
                  simp only [attemptStep, ha, hdisc, if_true]
                  refine countInv_single _ .register (by simp [hsa]) ?_ ?_ ?_
                  · simp [hcnt, countsOf]
                  · simpa [serverOf] using hsrv
                  · simpa [cacheOf] using hcache
              | register =>
                  have hfs : firstSome s.memClientInfo s.storage.clientInfo = none := by
                    cases hh : firstSome s.memClientInfo s.storage.clientInfo with
                    | none => rfl
                    | some x =>
                        rw [hh] at hcache
                        exact absurd hcache (by simp [cacheOf])
                  have hreg : registerClient env.staticClientInfo s.memClientInfo
                      s.storage.clientInfo env.registration_endpoint
                      (if env.registrationOk then .ok env.registeredClient
                       else .error "rejected")
                      = .ok ⟨env.registeredClient, some env.registeredClient,
                          some env.registeredClient, true⟩ := by
                    rw [hstat, hro]
                    simp [registerClient, hfs, hep]
                  simp only [attemptStep, ha, hreg]
                  refine countInv_single _ .initAuth (by simp [hsa]) ?_ ?_ ?_
                  · simp [hcnt, countsOf]
                  · simpa [serverOf] using hsrv
                  · simp [firstSome, cacheOf]
              | initAuth =>
                  have hsrv2 : s.serverRunning = false := by rw [hsrv]; rfl
                  simp only [attemptStep, ha, hsrv2, Bool.false_eq_true, if_false]
                  refine countInv_single _ .authFlow (by simp [hsa]) ?_ ?_ ?_
                  · simp [hcnt, countsOf]
                  · simp [serverOf]
                  · simpa [cacheOf] using hcache
              | authFlow =>
                  simp only [attemptStep, ha]
                  refine countInv_single _ .awaitRedirect (by simp [hsa]) ?_ ?_ ?_
                  · simpa [countsOf] using hcnt
                  · simpa [serverOf] using hsrv
                  · simpa [cacheOf] using hcache
              | awaitRedirect =>
                  cases henv : env.redirect with
                  | code c =>
                      simp only [attemptStep, ha, henv]
                      refine countInv_single _ .exchange (by simp [hsa]) ?_ ?_ ?_
                      · simpa [countsOf] using hcnt
                      · simpa [serverOf] using hsrv
                      · simpa [cacheOf] using hcache
                  | error e =>
                      rw [henv] at hred
                      exact Bool.noConfusion hred
                  | timeout =>
                      rw [henv] at hred
                      exact Bool.noConfusion hred
              | exchange =>
                  simp only [attemptStep, ha, hexo, if_true]
                  refine countInv_single _ (.completed .success) (by simp [hsa]) ?_ ?_ ?_
                  · simp [hcnt, countsOf]
                  · simpa [serverOf] using hsrv
                  · simpa [cacheOf] using hcache
        · have hlen := attemptStep_length env s k
          constructor
          · intro h0
            have := congrArg List.length h0
            rw [hlen, hsa] at this
            simp at this
          · intro ph hph
            have := congrArg List.length hph
            rw [hlen, hsa] at this
            simp at this

/-- Every happy-dynamic run from the initial state satisfies the counter
invariant. -/
theorem countInv_run (env : Env) (hd : happyDynamic env) (sched : List Tid) :
    countInv (run env initSys sched) := by
  suffices h : ∀ (l : List Tid) (s : Sys), countInv s → countInv (run env s l) by
    exact h sched initSys countInv_init
  intro l
  induction l with
  | nil => intro s hs; exact hs
  | cons t rest ih =>
      intro s hs
      exact ih (step env s t) (countInv_step env hd s t hs)

/-- C1 (amended) — single flight: in every schedule at most one attempt is in
flight at a time, and a step can only create a new attempt when every earlier
attempt has settled (so no second flow ever starts while one is in flight); a
caller whose check segment runs while the promise is set joins the in-flight
attempt instead of starting a flow, and a joined caller settles with exactly
the joined attempt's outcome; and in a happy dynamic environment any schedule
whose run ends with the single attempt completed successfully has performed
exactly one discovery, one registration, one listener bind and one token
exchange. -/
theorem c1_single_flight (env : Env) (sched : List Tid) :
    atMostOneInflight (run env initSys sched) ∧
    (∀ t : Tid, (step env (run env initSys sched) t).attempts.length >
        (run env initSys sched).attempts.length →
      allCompletedB (run env initSys sched) = true) ∧
    (∀ (i k : Nat) (snap : Option OAuthTokens),
      (run env initSys sched).callers i = .checked snap →
      (run env initSys sched).authPromise = some k → hasAccess snap = false →
      (step env (run env initSys sched) (Tid.caller i)).callers i = .joined k) ∧
    (∀ (i k : Nat) (o : Outcome), (run env initSys sched).callers i = .joined k →
      (run env initSys sched).attempts[k]? = some (.completed o) →
      (step env (run env initSys sched) (Tid.caller i)).callers i = .done o) ∧
    (happyDynamic env → (run env initSys sched).attempts = [.completed .success] →
      (run env initSys sched).counts = ⟨1, 1, 1, 1⟩) := by
  obtain ⟨hP, hO, hU⟩ := machInv_run env sched
  refine ⟨inflight_le_one _ hP, ?_, ?_, ?_, ?_⟩
  · intro t hgt
    cases hp : (run env initSys sched).authPromise with
    | none => exact allCompletedB_of_none _ hp hP
    | some k =>
        rw [step_length_of_promise env _ t k hp] at hgt
        exact absurd hgt (lt_irrefl _)
  · intro i k snap hc hp hA
    show (callerStep (run env initSys sched) i).callers i = .joined k
    simp [callerStep, hc, hA, hp, updateFn_self]
  · intro i k o hc ha
    show (callerStep (run env initSys sched) i).callers i = .done o
    simp [callerStep, hc, ha, updateFn_self]
  · intro hd hfin
    exact ((countInv_run env hd sched).2 (.completed .success) hfin).1

/-- Witness for C1: under `env0`, the well-behaved schedule keeps one attempt
in flight, caller 1 joins it and settles with its success, and the final
counters are all 1; at the race prefix the creating step finds every earlier
attempt settled. -/
theorem c1_single_flight_witness :
    allCompletedB (run env0 initSys schedRacePre) = true ∧
    (step env0 (run env0 initSys schedJoinPre) (Tid.caller 1)).callers 1 = .joined 0 ∧
    (step env0 (run env0 initSys schedJoinedDonePre) (Tid.caller 1)).callers 1
      = .done .success ∧
    (run env0 initSys schedGood).counts = ⟨1, 1, 1, 1⟩ := by
  refine ⟨?_, ?_, ?_, ?_⟩
  · exact (c1_single_flight env0 schedRacePre).2.1 (Tid.caller 1) (by decide)
  · exact (c1_single_flight env0 schedJoinPre).2.2.1 1 0 none (by decide) (by decide)
      (by decide)
  · exact (c1_single_flight env0 schedJoinedDonePre).2.2.2.1 1 0 .success (by decide)
      (by decide)
  · exact (c1_single_flight env0 schedGood).2.2.2.2
      ⟨rfl, rfl, rfl, rfl, rfl, rfl⟩ (by decide)

/-- C1 counterexample — the claim "any call to `ensureAuthenticated` made while
an attempt is in flight shares the outcome of that attempt, so N concurrent
calls with no stored token perform exactly one discovery" is false: in
`schedRace` caller 1 starts while attempt 0 is in flight and its `getTokens`
read resolves (still no token) before the exchange lands, but its check
segment runs only after the owner's `finally` cleared the promise; caller 1
then starts a second full flow — two discovery calls in total — and settles
with a bind failure instead of sharing attempt 0's success. -/
theorem c1_single_flight_counterexample :
    (run env0 initSys schedRace).counts.discoveries = 2 ∧
    isDone ((run env0 initSys schedRace).callers 0) = true ∧
    isDone ((run env0 initSys schedRace).callers 1) = true ∧
    (run env0 initSys schedRace).callers 0 = .done .success ∧
    (run env0 initSys schedRace).callers 1 = .done (.failure .bindFailed) := by
  refine ⟨?_, ?_, ?_, ?_, ?_⟩ <;> decide

/-- C2 (amended) — listener teardown: no machine step ever stops the callback
listener (in particular leaving `AwaitingRedirect` by timeout completes the
attempt with the timeout failure while leaving the listener running); the
listener is stopped only by the separate `cleanup` operation. -/
theorem c2_listener_teardown (env : Env) (s : Sys) (t : Tid) (k : Nat) :
    (s.serverRunning = true → (step env s t).serverRunning = true) ∧
    (cleanupSys s).serverRunning = false ∧
    (s.attempts[k]? = some .awaitRedirect → env.redirect = .timeout →
      (step env s (Tid.attempt k)).attempts[k]?
          = some (.completed (.failure .timeoutError)) ∧
      (step env s (Tid.attempt k)).serverRunning = s.serverRunning) := by
  refine ⟨?_, rfl, ?_⟩
  · intro hs
    cases t with
    | caller i =>
        show (callerStep s i).serverRunning = true
        cases hc : s.callers i
        all_goals simp only [callerStep, hc]
        · exact hs
        · cases hA : hasAccess _ <;> cases hp : s.authPromise <;> simp [hA, hp] <;> exact hs
        · repeat' split
          all_goals exact hs
        · repeat' split
          all_goals exact hs
        · exact hs
    | attempt k2 =>
        show (attemptStep env s k2).serverRunning = true
        simp only [attemptStep]
        repeat' split
        all_goals exact hs
  · intro ha hred
    have hk : k < s.attempts.length := lt_of_getq_some ha
    have hstep : step env s (Tid.attempt k)
        = { s with attempts := s.attempts.set k (.completed (.failure .timeoutError)) } := by
      show attemptStep env s k = _
      simp only [attemptStep, ha, hred]
    rw [hstep]
    exact ⟨List.getElem?_set_eq_of_lt _ hk, rfl⟩

/-- Witness for C2 at the concrete timed-out run: the step out of the redirect
wait completes the attempt with the timeout failure and keeps the listener
running, and `cleanup` stops it. -/
theorem c2_listener_teardown_witness :
    (step envTimeout (run envTimeout initSys schedTimeoutPre) (Tid.attempt 0)).serverRunning
      = true ∧
    (cleanupSys (run envTimeout initSys schedTimeoutPre)).serverRunning = false ∧
    (step envTimeout (run envTimeout initSys schedTimeoutPre) (Tid.attempt 0)).attempts[0]?
      = some (.completed (.failure .timeoutError)) := by
  have h := c2_listener_teardown envTimeout (run envTimeout initSys schedTimeoutPre)
    (Tid.attempt 0) 0
  exact ⟨h.1 (by decide), h.2.1, (h.2.2 (by decide) rfl).1⟩

/-- C2 counterexample — the claim "when the attempt leaves the awaiting-redirect
stage by the timeout the listener is stopped before the attempt completes" is
false: in the concrete timed-out run the attempt has completed with the
timeout failure while the callback server is still running. -/
theorem c2_listener_teardown_counterexample :
    (run envTimeout initSys schedTimeout).attempts
      = [.completed (.failure .timeoutError)] ∧
    (run envTimeout initSys schedTimeout).serverRunning = true := by
  exact ⟨by decide, by decide⟩

/-- C3 (amended) — token read path of `tokens()`: with a flow in progress the
call returns no token (and does not recurse), regardless of what is stored;
otherwise a stored record is returned as-is; otherwise, with auto-authenticate
enabled and no successful authentication completed yet in this instance's
lifetime (`authInitialized` false), the call drives the flow and returns the
re-read record; otherwise it returns no token without authenticating. -/
theorem c3_tokens_read_path (inFlight autoAuth initd : Bool)
    (stored afterAuth : Option OAuthTokens) :
    (inFlight = true → tokensRead inFlight autoAuth initd stored afterAuth
      = (none, false)) ∧
    (inFlight = false → ∀ tk, stored = some tk →
      tokensRead inFlight autoAuth initd stored afterAuth = (some tk, false)) ∧
    (inFlight = false → stored = none → autoAuth = true → initd = false →
      tokensRead inFlight autoAuth initd stored afterAuth = (afterAuth, true)) ∧
    (inFlight = false → stored = none → (autoAuth = false ∨ initd = true) →
      tokensRead inFlight autoAuth initd stored afterAuth = (none, false)) := by
  refine ⟨?_, ?_, ?_, ?_⟩
  · intro h
    simp [tokensRead, h]
  · intro h tk hs
    subst h hs
    simp [tokensRead]
  · intro h hs hauto hinit
    subst h hs hauto hinit
    simp [tokensRead]
  · intro h hs hcase
    subst h hs
    rcases hcase with h2 | h2 <;> subst h2 <;> simp [tokensRead]

/-- Witness for C3 at concrete arguments covering the four branches. -/
theorem c3_tokens_read_path_witness :
    tokensRead true true false (some issued0) (some issued0) = (none, false) ∧
    tokensRead false true true (some issued0) none = (some issued0, false) ∧
    tokensRead false true false none (some issued0) = (some issued0, true) ∧
    tokensRead false true true none (some issued0) = (none, false) := by
  refine ⟨?_, ?_, ?_, ?_⟩
  · exact (c3_tokens_read_path true true false (some issued0) (some issued0)).1 rfl
  · exact (c3_tokens_read_path false true true (some issued0) none).2.1 rfl issued0 rfl
  · exact (c3_tokens_read_path false true false none (some issued0)).2.2.1 rfl rfl rfl rfl
  · exact (c3_tokens_read_path false true true none (some issued0)).2.2.2 rfl rfl
      (Or.inr rfl)

/-- C3 counterexample — two clauses of the claim fail on the code.  First, in
the reachable state obtained by a successful authentication followed by
`invalidateCredentials('tokens')` (no stored token, auto-authenticate on, no
flow in progress), `tokens()` does not drive the state machine: the
`authInitialized` guard makes it return no token without authenticating.
Second, with a flow in progress, `tokens()` returns no token even though a
TokenSet is stored. -/
theorem c3_tokens_read_path_counterexample :
    (invalidateTokensSys (run env0 initSys schedGood)).authPromise = none ∧
    (invalidateTokensSys (run env0 initSys schedGood)).authInitialized = true ∧
    (invalidateTokensSys (run env0 initSys schedGood)).storage.tokens = none ∧
    tokensRead false true
        (invalidateTokensSys (run env0 initSys schedGood)).authInitialized
        (invalidateTokensSys (run env0 initSys schedGood)).storage.tokens
        (some issued0)
      = (none, false) ∧
    tokensRead true true false (some issued0) (some issued0) = (none, false) := by
  refine ⟨?_, ?_, ?_, ?_, ?_⟩ <;> decide

/-- C4 — already-authenticated shortcut: from any state whose store holds a
TokenSet with a truthy `access_token`, an `ensureAuthenticated` caller reaches
success in its two segments without creating an attempt, touching a counter,
starting the listener, changing the store, or touching the promise; and
`tokens()` with a stored record and no flow in progress returns the stored
record without authenticating. -/
theorem c4_already_authenticated (env : Env) (s : Sys) (i : Nat)
    (hc : s.callers i = .pending) (hA : hasAccess s.storage.tokens = true) :
    (step env (step env s (Tid.caller i)) (Tid.caller i)).callers i = .done .success ∧
    (step env (step env s (Tid.caller i)) (Tid.caller i)).attempts = s.attempts ∧
    (step env (step env s (Tid.caller i)) (Tid.caller i)).counts = s.counts ∧
    (step env (step env s (Tid.caller i)) (Tid.caller i)).serverRunning = s.serverRunning ∧
    (step env (step env s (Tid.caller i)) (Tid.caller i)).storage = s.storage ∧
    (step env (step env s (Tid.caller i)) (Tid.caller i)).authPromise = s.authPromise ∧
    (∀ (autoAuth initd : Bool) (tk : OAuthTokens) (afterAuth : Option OAuthTokens),
      tokensRead false autoAuth initd (some tk) afterAuth = (some tk, false)) := by
  have h1 : step env s (Tid.caller i)
      = { s with callers := updateFn s.callers i (.checked s.storage.tokens) } := by
    show callerStep s i = _
    simp only [callerStep, hc]
  have h2 : step env (step env s (Tid.caller i)) (Tid.caller i)
      = { s with callers := (updateFn (updateFn s.callers i
          (.checked s.storage.tokens)) i (.done .success)) } := by
    rw [h1]
    show callerStep _ i = _
    simp only [callerStep, updateFn_self, hA, if_true]
  rw [h2]
  refine ⟨updateFn_self .., rfl, rfl, rfl, rfl, rfl, ?_⟩
  intro autoAuth initd tk afterAuth
  simp [tokensRead]

/-- Witness for C4 at the concrete rest state holding a valid token. -/
theorem c4_already_authenticated_witness :
    (step env0 (step env0 sysTok (Tid.caller 0)) (Tid.caller 0)).callers 0
      = .done .success ∧
    (step env0 (step env0 sysTok (Tid.caller 0)) (Tid.caller 0)).counts = sysTok.counts ∧
    (step env0 (step env0 sysTok (Tid.caller 0)) (Tid.caller 0)).attempts
      = sysTok.attempts ∧
    (step env0 (step env0 sysTok (Tid.caller 0)) (Tid.caller 0)).serverRunning
      = sysTok.serverRunning ∧
    tokensRead false true false (some issued0) none = (some issued0, false) := by
  have h := c4_already_authenticated env0 sysTok 0 rfl (by decide)
  exact ⟨h.1, h.2.2.1, h.2.1, h.2.2.2.1, h.2.2.2.2.2.2 true false issued0 none⟩

end Oauth
